import Mathlib

/-
Task manager controller (src/js/index.js).

A shallow embedding of the controller of the AJAX task manager and the
properties of its edit/save state, its id counter and its list operations.

Modelling choices.

* The five module globals of index.js (tasks, nextTaskId, editingTaskId,
  originalTaskTitle, savingTaskId) are the first five fields of State.
* Task ids and nextTaskId are JavaScript numbers holding integers. They are
  modelled by their integer value; the two additions of the code (the + 1
  after Math.max and nextTaskId++) are double additions and round to the
  nearest double, ties to even (addOne). Comparison and Math.max are exact.
  Ids of a parsed payload are doubles already.
* Task objects have identity: toggleTaskComplete keeps the object it found and
  flips that very object when the request completes. Every task of the model
  carries ref, the identity of its object; nextRef is the allocation counter.
* Network calls are asynchronous. A call appends a Request to pending; the
  completion callback runs later as a step of its own, in any order, for a
  request that is pending. A failure is a transport error, a non-2xx status or
  an unparsable body.
* DOM input values (taskInput.value, the edit input value), the answer of
  confirm() and the response bodies are parameters of the steps.
* Every showStatus call is recorded in notices. showLoading, the focus calls
  and the markup of renderTasks only affect the display and are not modelled,
  except for which edit input renderTasks puts into the document.
* handleEditKeydown only dispatches to saveEdit and cancelEdit and is not
  modelled.
-/

namespace TaskManager

/-- The type argument of showStatus. -/
inductive StatusType
  | success
  | error
  deriving DecidableEq, Repr

/-- One constructor per showStatus call site of index.js. -/
inductive Notice
  /-- Tasks loaded successfully! -/
  | tasksLoaded
  /-- Error loading tasks. -/
  | errorLoading
  /-- Network error while loading tasks. -/
  | networkErrorLoading
  /-- Please enter a task title. -/
  | enterTaskTitle
  /-- Task created successfully! -/
  | taskCreated
  /-- Error creating task. -/
  | errorCreating
  /-- Task deleted successfully! -/
  | taskDeleted
  /-- Error deleting task. -/
  | errorDeleting
  /-- Task title cannot be empty. -/
  | titleCannotBeEmpty
  /-- Task updated successfully! -/
  | taskUpdated
  /-- Error updating task. -/
  | errorUpdating
  /-- Please wait while the task is being saved... -/
  | pleaseWait
  /-- Task marked as completed! or Task marked as incomplete!, according to
  the toggled object; which of the two is not modelled. -/
  | taskMarked
  /-- Error updating task status. -/
  | errorUpdatingStatus
  deriving DecidableEq, Repr

/-- The type each call site passes to showStatus. -/
def Notice.type : Notice → StatusType
  | .tasksLoaded => .success
  | .taskCreated => .success
  | .taskDeleted => .success
  | .taskUpdated => .success
  | .taskMarked => .success
  | .errorLoading => .error
  | .networkErrorLoading => .error
  | .enterTaskTitle => .error
  | .errorCreating => .error
  | .errorDeleting => .error
  | .titleCannotBeEmpty => .error
  | .errorUpdating => .error
  | .pleaseWait => .error
  | .errorUpdatingStatus => .error

/-- A task object of the in-memory list. -/
structure Task where
  /-- Identity of the JavaScript object. -/
  ref : Nat
  id : Int
  title : String
  completed : Bool
  deriving DecidableEq, Repr

/-- The fields of a task-like JSON object of a response body that the
controller reads. -/
structure Item where
  id : Int
  title : String
  completed : Bool
  deriving DecidableEq, Repr

/-- A request in flight, with what its completion callbacks captured. -/
inductive Request
  /-- GET API_URL?_limit=5 -/
  | fetch
  /-- POST API_URL with the trimmed title -/
  | create (taskTitle : String)
  /-- DELETE API_URL/id -/
  | delete (id : Int)
  /-- PUT API_URL/id from saveEdit; the callback captures id and newTitle -/
  | save (id : Int) (newTitle : String)
  /-- PUT API_URL/id from toggleTaskComplete; the callback captures the task
  object -/
  | toggle (id : Int) (task : Nat)
  deriving DecidableEq, Repr

/-- Controller state: the module globals, the requests in flight, the object
allocation counter and the notifications shown so far. -/
structure State where
  tasks : List Task
  nextTaskId : Int
  editingTaskId : Option Int
  originalTaskTitle : String
  savingTaskId : Option Int
  pending : List Request
  nextRef : Nat
  notices : List Notice
  deriving DecidableEq, Repr

/-- The globals as index.js declares them (lines 2 to 6). -/
def init : State :=
  { tasks := []
    nextTaskId := 1
    editingTaskId := none
    originalTaskTitle := ""
    savingTaskId := none
    pending := []
    nextRef := 0
    notices := [] }

/-- WhiteSpace and LineTerminator code points of ECMAScript, the characters
String.prototype.trim strips. -/
def isWhiteSpace (c : Char) : Bool :=
  c.toNat == 0x09 || c.toNat == 0x0A || c.toNat == 0x0B || c.toNat == 0x0C ||
  c.toNat == 0x0D || c.toNat == 0x20 || c.toNat == 0xA0 || c.toNat == 0x1680 ||
  (0x2000 ≤ c.toNat && c.toNat ≤ 0x200A) || c.toNat == 0x2028 ||
  c.toNat == 0x2029 || c.toNat == 0x202F || c.toNat == 0x205F ||
  c.toNat == 0x3000 || c.toNat == 0xFEFF

/-- String.prototype.trim on the list of characters. -/
def trimChars (cs : List Char) : List Char :=
  ((cs.dropWhile isWhiteSpace).reverse.dropWhile isWhiteSpace).reverse

/-- String.prototype.trim. -/
def trim (s : String) : String :=
  String.mk (trimChars s.data)

/-- showStatus(message, type): the message shown is recorded. -/
def showStatus (s : State) (n : Notice) : State :=
  { s with notices := s.notices ++ [n] }

/-- The number 2^53: the integers of absolute value up to 2^53 are doubles
and their sums within that range are exact. -/
def twoPow53 : Nat := 9007199254740992

/-- The least q among start, 2 start, 4 start, ... with a / q below 2^53: the
unit in the last place of a double of magnitude a. The search takes at most
fuel doublings. -/
def ulpFrom : Nat → Nat → Nat → Nat
  | 0, _, q => q
  | fuel + 1, a, q => if a / q < twoPow53 then q else ulpFrom fuel a (2 * q)

/-- The double nearest to the integer z, ties to the even significand
(IEEE 754 binary64, 53 bits of significand). For z of absolute value below
2^1024, where the nearest double is finite. -/
def roundToDouble (z : Int) : Int :=
  let a := z.natAbs
  if a < twoPow53 then z
  else
    let q := ulpFrom 1024 a 2
    let m := a / q
    let r := a % q
    let up := decide (q < 2 * r) || (decide (2 * r = q) && m % 2 == 1)
    Int.sign z * (((if up then m + 1 else m) * q : Nat) : Int)

/-- The JavaScript sum x + 1 of a number x holding an integer; also the new
value of x after x++. -/
def addOne (x : Int) : Int :=
  roundToDouble (x + 1)

/-- Number.isSafeInteger for a number holding an integer: absolute value
below 2^53. -/
def safeInteger (i : Int) : Bool :=
  decide (-(twoPow53 : Int) < i) && decide (i < (twoPow53 : Int))

/-- Math.max(x, ...xs) on a non-empty argument list. -/
def mathMax (x : Int) (xs : List Int) : Int :=
  xs.foldl max x

/-- The array built by data.map in fetchTasks: a fresh object per item, with
the three fields id, title and completed. -/
def mapItems (r : Nat) : List Item → List Task
  | [] => []
  | d :: ds =>
    { ref := r, id := d.id, title := d.title, completed := d.completed } :: mapItems (r + 1) ds

/-- The value fetchTasks assigns to nextTaskId (lines 45 to 47). -/
def nextIdFor (ts : List Task) : Int :=
  match ts.map (fun t => t.id) with
  | [] => 1
  | x :: xs => addOne (mathMax x xs)

/-- fetchTasks(): sends the GET request. -/
def fetchTasks (s : State) : State :=
  { s with pending := s.pending ++ [Request.fetch] }

/-- The readyState 4 handler of fetchTasks on a 2xx status with a parsable
array (lines 38 to 49). -/
def fetchTasksLoaded (s : State) (data : List Item) : State :=
  let ts := mapItems s.nextRef data
  showStatus
    { s with tasks := ts, nextTaskId := nextIdFor ts, nextRef := s.nextRef + data.length }
    Notice.tasksLoaded

/-- The failure paths of fetchTasks: a non-2xx status or an unparsable body
(lines 50 to 55), and for a transport error also xhr.onerror (lines 59 to 62). -/
def fetchTasksFailed (s : State) (network : Bool) : State :=
  let s1 := showStatus s Notice.errorLoading
  if network then showStatus s1 Notice.networkErrorLoading else s1

/-- createTask(), with value the content of the task input (lines 66 to 91). -/
def createTask (s : State) (value : String) : State :=
  let taskTitle := trim value
  if taskTitle = "" then
    showStatus s Notice.enterTaskTitle
  else
    { s with pending := s.pending ++ [Request.create taskTitle] }

/-- The then callback of createTask (lines 98 to 105): data is the parsed
response body. -/
def createTaskThen (s : State) (data : Item) : State :=
  let task : Task :=
    { ref := s.nextRef, id := s.nextTaskId, title := data.title, completed := data.completed }
  showStatus
    { s with
      tasks := task :: s.tasks
      nextTaskId := addOne s.nextTaskId
      nextRef := s.nextRef + 1 }
    Notice.taskCreated

/-- The catch callback of createTask (lines 106 to 108). -/
def createTaskCatch (s : State) : State :=
  showStatus s Notice.errorCreating

/-- deleteTask(id), with confirmed the answer of confirm() (lines 114 to 121). -/
def deleteTask (s : State) (id : Int) (confirmed : Bool) : State :=
  if confirmed then { s with pending := s.pending ++ [Request.delete id] } else s

/-- The then callback of deleteTask (lines 122 to 129). -/
def deleteTaskThen (s : State) (id : Int) : State :=
  showStatus { s with tasks := s.tasks.filter (fun task => task.id != id) } Notice.taskDeleted

/-- The catch callback of deleteTask (lines 130 to 133). -/
def deleteTaskCatch (s : State) : State :=
  showStatus s Notice.errorDeleting

/-- cancelEdit() (lines 213 to 224). -/
def cancelEdit (s : State) : State :=
  if s.editingTaskId ≠ none ∧ s.savingTaskId = s.editingTaskId then
    showStatus s Notice.pleaseWait
  else
    { s with editingTaskId := none, originalTaskTitle := "" }

/-- editTask(id) (lines 136 to 148). -/
def editTask (s : State) (id : Int) : State :=
  let s1 := if s.editingTaskId ≠ none ∧ s.editingTaskId ≠ some id then cancelEdit s else s
  match s1.tasks.find? (fun t => t.id == id) with
  | none => s1
  | some task => { s1 with editingTaskId := some id, originalTaskTitle := task.title }

/-- Whether the document holds the element edit-input-id: renderTasks writes
that input for the tasks with editingTaskId === task.id (lines 286 to 313),
and every change of tasks or editingTaskId is followed by renderTasks. -/
def editInputRendered (s : State) (id : Int) : Bool :=
  s.tasks.any (fun task => s.editingTaskId == some task.id && task.id == id)

/-- saveEdit(id), with value the content of the edit input (lines 150 to 183).
The result is none when the edit input is not in the document: reading
editInput.value then throws and nothing is changed. -/
def saveEdit (s : State) (id : Int) (value : String) : Option State :=
  if editInputRendered s id then
    let newTitle := trim value
    if newTitle = "" then
      some (showStatus s Notice.titleCannotBeEmpty)
    else if newTitle = s.originalTaskTitle then
      some (cancelEdit s)
    else
      some { s with savingTaskId := some id, pending := s.pending ++ [Request.save id newTitle] }
  else
    none

/-- tasks.findIndex(p); none stands for -1. -/
def findIndex (p : Task → Bool) : List Task → Option Nat
  | [] => none
  | t :: ts => if p t then some 0 else (findIndex p ts).map (· + 1)

/-- The assignment tasks[taskIndex].title = newTitle. -/
def setTitleAt (ts : List Task) (taskIndex : Nat) (newTitle : String) : List Task :=
  match ts[taskIndex]? with
  | some t => ts.set taskIndex { t with title := newTitle }
  | none => ts

/-- The update of the local task in the then callback of saveEdit (lines 191
to 195). -/
def updateLocalTask (ts : List Task) (id : Int) (newTitle : String) : List Task :=
  match findIndex (fun t => t.id == id) ts with
  | some taskIndex => setTitleAt ts taskIndex newTitle
  | none => ts

/-- The then callback of saveEdit (lines 190 to 201). -/
def saveEditThen (s : State) (id : Int) (newTitle : String) : State :=
  showStatus
    { s with
      tasks := updateLocalTask s.tasks id newTitle
      editingTaskId := none
      originalTaskTitle := ""
      savingTaskId := none }
    Notice.taskUpdated

/-- The catch callback of saveEdit (lines 202 to 207). -/
def saveEditCatch (s : State) : State :=
  { showStatus s Notice.errorUpdating with savingTaskId := none }

/-- toggleTaskComplete(id) (lines 239 to 255). -/
def toggleTaskComplete (s : State) (id : Int) : State :=
  match s.tasks.find? (fun t => t.id == id) with
  | none => s
  | some task => { s with pending := s.pending ++ [Request.toggle id task.ref] }

/-- The assignment task.completed = !task.completed on the object task, as
seen through the list. -/
def flipCompleted (task : Nat) (ts : List Task) : List Task :=
  ts.map (fun t => if t.ref = task then { t with completed := !t.completed } else t)

/-- The then callback of toggleTaskComplete (lines 262 to 270). -/
def toggleTaskCompleteThen (s : State) (task : Nat) : State :=
  showStatus { s with tasks := flipCompleted task s.tasks } Notice.taskMarked

/-- The catch callback of toggleTaskComplete (lines 271 to 276). -/
def toggleTaskCompleteCatch (s : State) : State :=
  showStatus s Notice.errorUpdatingStatus

/-- The events of the controller: calls of its functions and completions of
its requests. -/
inductive Action
  | fetchTasks
  | fetchLoaded (data : List Item)
  | fetchFailed (network : Bool)
  | createTask (value : String)
  | createThen (taskTitle : String) (data : Item)
  | createCatch (taskTitle : String)
  | deleteTask (id : Int) (confirmed : Bool)
  | deleteThen (id : Int)
  | deleteCatch (id : Int)
  | editTask (id : Int)
  | saveEdit (id : Int) (value : String)
  | saveThen (id : Int) (newTitle : String)
  | saveCatch (id : Int) (newTitle : String)
  | cancelEdit
  | toggleTaskComplete (id : Int)
  | toggleThen (id : Int) (task : Nat)
  | toggleCatch (id : Int) (task : Nat)
  deriving DecidableEq, Repr

/-- Takes the request r out of the requests in flight; none when it is not
in flight. -/
def complete (s : State) (r : Request) : Option State :=
  if r ∈ s.pending then some { s with pending := s.pending.erase r } else none

/-- One step of the controller; none when the event cannot happen in s. -/
def step (s : State) : Action → Option State
  | .fetchTasks => some (fetchTasks s)
  | .fetchLoaded data => (complete s Request.fetch).map (fun s1 => fetchTasksLoaded s1 data)
  | .fetchFailed network => (complete s Request.fetch).map (fun s1 => fetchTasksFailed s1 network)
  | .createTask value => some (createTask s value)
  | .createThen taskTitle data =>
    (complete s (Request.create taskTitle)).map (fun s1 => createTaskThen s1 data)
  | .createCatch taskTitle => (complete s (Request.create taskTitle)).map createTaskCatch
  | .deleteTask id confirmed => some (deleteTask s id confirmed)
  | .deleteThen id => (complete s (Request.delete id)).map (fun s1 => deleteTaskThen s1 id)
  | .deleteCatch id => (complete s (Request.delete id)).map deleteTaskCatch
  | .editTask id => some (editTask s id)
  | .saveEdit id value => saveEdit s id value
  | .saveThen id newTitle =>
    (complete s (Request.save id newTitle)).map (fun s1 => saveEditThen s1 id newTitle)
  | .saveCatch id newTitle => (complete s (Request.save id newTitle)).map saveEditCatch
  | .cancelEdit => some (cancelEdit s)
  | .toggleTaskComplete id => some (toggleTaskComplete s id)
  | .toggleThen id task =>
    (complete s (Request.toggle id task)).map (fun s1 => toggleTaskCompleteThen s1 task)
  | .toggleCatch id task => (complete s (Request.toggle id task)).map toggleTaskCompleteCatch

/-- Runs a sequence of events from s. -/
def run (s : State) : List Action → Option State
  | [] => some s
  | a :: as => (step s a).bind (fun s1 => run s1 as)

/-- The states the controller can be in: those some sequence of events leads
to from the initial globals. -/
def Reachable (s : State) : Prop :=
  ∃ as : List Action, run init as = some s

/-- The id counter is above -2^53 and, while it is below 2^53, above every id
of the list. -/
def CounterInv (s : State) : Prop :=
  -(twoPow53 : Int) < s.nextTaskId ∧
  (s.nextTaskId < (twoPow53 : Int) → ∀ i ∈ s.tasks.map (fun t => t.id), i < s.nextTaskId)

/-- While the id counter is below 2^53 the ids of the list are pairwise
distinct. -/
def DistinctInv (s : State) : Prop :=
  s.nextTaskId < (twoPow53 : Int) → (s.tasks.map (fun t => t.id)).Nodup

/-- The objects of the list are pairwise different and were all allocated. -/
def RefsFresh (s : State) : Prop :=
  (∀ t ∈ s.tasks, t.ref < s.nextRef) ∧ (s.tasks.map (fun t => t.ref)).Nodup

/-- The ids of a loaded payload are pairwise distinct; no condition on any
other event. -/
def distinctPayload : Action → Bool
  | .fetchLoaded data => decide (data.map (fun d => d.id)).Nodup
  | _ => true

/-- The ids of a loaded payload are safe integers; no condition on any other
event. -/
def safePayload : Action → Bool
  | .fetchLoaded data => data.all (fun d => safeInteger d.id)
  | _ => true

/-- The events of saveEdit: its call and the completions of its requests. -/
def Action.isSave : Action → Bool
  | .saveEdit _ _ => true
  | .saveThen _ _ => true
  | .saveCatch _ _ => true
  | _ => false

/-- A call of editTask for a task other than id. -/
def Action.editsOther (id : Int) : Action → Bool
  | .editTask j => j != id
  | _ => false

/-- A payload of two tasks. -/
def twoItems : List Item :=
  [{ id := 1, title := "A", completed := false }, { id := 2, title := "B", completed := false }]

/-- A payload of one task. -/
def oneItem : List Item :=
  [{ id := 1, title := "A", completed := false }]

/-- A payload of one task with an empty title. -/
def untitledItem : List Item :=
  [{ id := 1, title := "", completed := false }]

/-- Load one task and start editing it. -/
def editingOne : List Action :=
  [.fetchTasks, .fetchLoaded oneItem, .editTask 1]

/-- Load one task, edit it and submit a new title; the request is in flight. -/
def savingOne : List Action :=
  [.fetchTasks, .fetchLoaded oneItem, .editTask 1, .saveEdit 1 "B"]

/-- Load one task without a title and start editing it. -/
def editingUntitled : List Action :=
  [.fetchTasks, .fetchLoaded untitledItem, .editTask 1]

/-- Load two tasks, edit the first, submit a new title and, while that request
is in flight, press Edit on the second task. -/
def switchWhileSaving : List Action :=
  [.fetchTasks, .fetchLoaded twoItems, .editTask 1, .saveEdit 1 "C", .editTask 2]

/-- After switchWhileSaving, submit a new title for the second task as well. -/
def saveSecondWhileSaving : List Action :=
  [.fetchTasks, .fetchLoaded twoItems, .editTask 1, .saveEdit 1 "C", .editTask 2,
    .saveEdit 2 "D"]

/-- Create a task on the empty list; the API answers with a completed task. -/
def createAnsweredCompleted : List Action :=
  [.createTask "Buy milk", .createThen "Buy milk" { id := 101, title := "Buy milk", completed := true }]

/-- Load two tasks, then create a third one. -/
def loadThenCreate : List Action :=
  [.fetchTasks, .fetchLoaded twoItems, .createTask " C ",
    .createThen "C" { id := 201, title := "C", completed := false }]

/-- The state loadThenCreate leads to. -/
def afterLoadThenCreate : State :=
  { tasks :=
      [{ ref := 2, id := 3, title := "C", completed := false },
        { ref := 0, id := 1, title := "A", completed := false },
        { ref := 1, id := 2, title := "B", completed := false }]
    nextTaskId := 4
    editingTaskId := none
    originalTaskTitle := ""
    savingTaskId := none
    pending := []
    nextRef := 3
    notices := [Notice.tasksLoaded, Notice.taskCreated] }

/-- The state editingOne leads to. -/
def afterEditingOne : State :=
  { tasks := [{ ref := 0, id := 1, title := "A", completed := false }]
    nextTaskId := 2
    editingTaskId := some 1
    originalTaskTitle := "A"
    savingTaskId := none
    pending := []
    nextRef := 1
    notices := [Notice.tasksLoaded] }

/-- After switchWhileSaving, the request of the first task fails. -/
def failAfterSwitch : List Action :=
  [.fetchTasks, .fetchLoaded twoItems, .editTask 1, .saveEdit 1 "C", .editTask 2,
    .saveCatch 1 "C"]

/-- After saveSecondWhileSaving, the request of the second task fails while
the request of the first task is still in flight. -/
def secondFailsWhileSaving : List Action :=
  [.fetchTasks, .fetchLoaded twoItems, .editTask 1, .saveEdit 1 "C", .editTask 2,
    .saveEdit 2 "D", .saveCatch 2 "D"]

/-- A payload whose greatest id is 2^53. -/
def itemsUpToLimit : List Item :=
  [{ id := 1, title := "A", completed := false },
    { id := 9007199254740992, title := "B", completed := false }]

/-- A payload of one task with the greatest safe integer 2^53 - 1 as id. -/
def greatestSafeItem : List Item :=
  [{ id := 9007199254740991, title := "A", completed := false }]

/-- A payload of one task with id -2^54. -/
def farNegativeItem : List Item :=
  [{ id := -18014398509481984, title := "A", completed := false }]

/-- Load the payload whose greatest id is 2^53. -/
def loadUpToLimit : List Action :=
  [.fetchTasks, .fetchLoaded itemsUpToLimit]

/-- Load the task with id -2^54. -/
def loadFarNegative : List Action :=
  [.fetchTasks, .fetchLoaded farNegativeItem]

/-- Load the payload whose greatest id is 2^53, then create a task. -/
def loadUpToLimitThenCreate : List Action :=
  [.fetchTasks, .fetchLoaded itemsUpToLimit, .createTask "C",
    .createThen "C" { id := 201, title := "C", completed := false }]

/-- Load the task with id 2^53 - 1, then create one task. -/
def createOnceAtLimit : List Action :=
  [.fetchTasks, .fetchLoaded greatestSafeItem, .createTask "B",
    .createThen "B" { id := 201, title := "B", completed := false }]

/-- Load the task with id 2^53 - 1, then create two tasks. -/
def createTwiceAtLimit : List Action :=
  [.fetchTasks, .fetchLoaded greatestSafeItem, .createTask "B",
    .createThen "B" { id := 201, title := "B", completed := false }, .createTask "C",
    .createThen "C" { id := 201, title := "C", completed := false }]

/-- After switchWhileSaving, the request of the first task succeeds. -/
def succeedAfterSwitch : List Action :=
  [.fetchTasks, .fetchLoaded twoItems, .editTask 1, .saveEdit 1 "C", .editTask 2,
    .saveThen 1 "C"]

/-! Lemmas on the double increment -/

theorem ulpFrom_bounds (fuel a q : Nat) (h : 2 ^ 52 * q ≤ a) :
    q ≤ ulpFrom fuel a q ∧ 2 ^ 52 * ulpFrom fuel a q ≤ a := by
  induction fuel generalizing q with
  | zero => exact ⟨le_refl _, h⟩
  | succ n ih =>
    unfold ulpFrom
    split
    · exact ⟨le_refl _, h⟩
    · rename_i hq
      have hq0 : 0 < q := by
        rcases Nat.eq_zero_or_pos q with h0 | h0
        · subst h0
          simp [twoPow53] at hq
        · exact h0
      have h1 : twoPow53 * q ≤ a := (Nat.le_div_iff_mul_le hq0).1 (Nat.le_of_not_lt hq)
      have h2 : 2 ^ 52 * (2 * q) ≤ a := by
        have : 2 ^ 52 * (2 * q) = twoPow53 * q := by
          unfold twoPow53
          ring
        rw [this]
        exact h1
      have := ih (2 * q) h2
      exact ⟨by omega, this.2⟩

theorem addOne_exact (x : Int) (h1 : -(twoPow53 : Int) < x) (h2 : x < (twoPow53 : Int)) :
    addOne x = x + 1 := by
  by_cases h3 : x + 1 = (twoPow53 : Int)
  · have hx : x = 9007199254740991 := by
      unfold twoPow53 at h3
      omega
    subst hx
    decide
  · unfold addOne roundToDouble
    have : (x + 1).natAbs < twoPow53 := by
      unfold twoPow53 at *
      omega
    simp only [this, if_true]

theorem addOne_ge (x : Int) (h : (twoPow53 : Int) ≤ x) : (twoPow53 : Int) ≤ addOne x := by
  unfold addOne roundToDouble
  have ha : twoPow53 ≤ (x + 1).natAbs := by
    unfold twoPow53 at *
    omega
  have hpos : 0 < x + 1 := by
    unfold twoPow53 at h
    omega
  simp only [Nat.not_lt.2 ha, if_false, Int.sign_eq_one_of_pos hpos, one_mul]
  have hb := ulpFrom_bounds 1024 (x + 1).natAbs 2 (by unfold twoPow53 at ha; omega)
  generalize ulpFrom 1024 (x + 1).natAbs 2 = q at hb ⊢
  generalize (x + 1).natAbs = a at hb ⊢
  have hq0 : 0 < q := by omega
  have hm : 2 ^ 52 ≤ a / q := (Nat.le_div_iff_mul_le hq0).2 hb.2
  have hmq : 2 ^ 52 * 2 ≤ a / q * q := Nat.mul_le_mul hm hb.1
  have key : twoPow53 ≤ (if (decide (q < 2 * (a % q)) ||
      (decide (2 * (a % q) = q) && a / q % 2 == 1)) = true then a / q + 1 else a / q) * q := by
    split
    · have : a / q * q ≤ (a / q + 1) * q := Nat.mul_le_mul_right _ (Nat.le_succ _)
      unfold twoPow53
      omega
    · unfold twoPow53
      omega
  exact_mod_cast key

/-! Lemmas on the list operations -/

theorem le_mathMax (x : Int) (xs : List Int) : x ≤ mathMax x xs ∧ ∀ y ∈ xs, y ≤ mathMax x xs := by
  unfold mathMax
  induction xs generalizing x with
  | nil => simp
  | cons z zs ih =>
    simp only [List.foldl_cons, List.mem_cons, forall_eq_or_imp]
    have h := ih (max x z)
    refine ⟨le_trans (le_max_left x z) h.1, le_trans (le_max_right x z) h.1, h.2⟩

theorem mathMax_mem (x : Int) (xs : List Int) : mathMax x xs ∈ x :: xs := by
  unfold mathMax
  induction xs generalizing x with
  | nil => simp
  | cons z zs ih =>
    simp only [List.foldl_cons]
    have h := ih (max x z)
    rcases List.mem_cons.1 h with h1 | h1
    · rw [h1]
      rcases max_choice x z with h2 | h2 <;> rw [h2] <;> simp
    · exact List.mem_cons_of_mem _ (List.mem_cons_of_mem _ h1)

theorem mapItems_map_id (r : Nat) (data : List Item) :
    (mapItems r data).map (fun t => t.id) = data.map (fun d => d.id) := by
  induction data generalizing r with
  | nil => rfl
  | cons d ds ih => simp [mapItems, ih]

theorem mapItems_ref_bounds (r : Nat) (data : List Item) :
    ∀ t ∈ mapItems r data, r ≤ t.ref ∧ t.ref < r + data.length := by
  induction data generalizing r with
  | nil => simp [mapItems]
  | cons d ds ih =>
    intro t ht
    simp only [mapItems, List.mem_cons] at ht
    rcases ht with rfl | ht
    · simp
    · have := ih (r + 1) t ht
      simp only [List.length_cons]
      omega

theorem mapItems_ref_nodup (r : Nat) (data : List Item) :
    ((mapItems r data).map (fun t => t.ref)).Nodup := by
  induction data generalizing r with
  | nil => simp [mapItems]
  | cons d ds ih =>
    simp only [mapItems, List.map_cons, List.nodup_cons, List.mem_map, not_exists, not_and]
    refine ⟨?_, ih (r + 1)⟩
    intro t ht h
    have := (mapItems_ref_bounds (r + 1) ds t ht).1
    omega

theorem setTitleAt_map {β : Type} (f : Task → β)
    (hf : ∀ (t : Task) (x : String), f { t with title := x } = f t)
    (ts : List Task) (i : Nat) (x : String) : (setTitleAt ts i x).map f = ts.map f := by
  induction ts generalizing i with
  | nil => simp [setTitleAt]
  | cons t ts ih =>
    cases i with
    | zero => simp [setTitleAt, hf]
    | succ k =>
      have h := ih k
      unfold setTitleAt at h ⊢
      simp only [List.getElem?_cons_succ]
      cases hk : ts[k]? with
      | none => simp
      | some u =>
        rw [hk] at h
        simpa using h

theorem flipCompleted_map {β : Type} (f : Task → β)
    (hf : ∀ (t : Task) (b : Bool), f { t with completed := b } = f t)
    (task : Nat) (ts : List Task) : (flipCompleted task ts).map f = ts.map f := by
  unfold flipCompleted
  rw [List.map_map]
  apply List.map_congr_left
  intro t _
  simp only [Function.comp]
  split <;> simp [hf]

theorem complete_eq_some {s s1 : State} {r : Request} (h : complete s r = some s1) :
    r ∈ s.pending ∧ s1 = { s with pending := s.pending.erase r } := by
  unfold complete at h
  split at h
  · exact ⟨by assumption, by simpa using h.symm⟩
  · simp at h

theorem setTitleAt_succ (u : Task) (ts : List Task) (k : Nat) (x : String) :
    setTitleAt (u :: ts) (k + 1) x = u :: setTitleAt ts k x := by
  unfold setTitleAt
  simp only [List.getElem?_cons_succ]
  cases ts[k]? <;> simp

theorem updateLocalTask_cons (u : Task) (ts : List Task) (id : Int) (x : String) :
    updateLocalTask (u :: ts) id x =
      if u.id = id then { u with title := x } :: ts else u :: updateLocalTask ts id x := by
  unfold updateLocalTask
  by_cases h : u.id = id
  · simp [findIndex, h, setTitleAt]
  · simp only [findIndex, beq_iff_eq, h, if_false]
    cases findIndex (fun t => t.id == id) ts with
    | none => simp
    | some k => simp [setTitleAt_succ]

theorem updateLocalTask_split (pre post : List Task) (t : Task) (id : Int) (x : String)
    (ht : t.id = id) (hpre : ∀ u ∈ pre, u.id ≠ id) :
    updateLocalTask (pre ++ t :: post) id x = pre ++ { t with title := x } :: post := by
  induction pre with
  | nil => simp [updateLocalTask_cons, ht]
  | cons u pre ih =>
    have hu : u.id ≠ id := hpre u (List.mem_cons_self _ _)
    have := ih (fun v hv => hpre v (List.mem_cons_of_mem _ hv))
    simp [updateLocalTask_cons, hu, this]

theorem updateLocalTask_absent (ts : List Task) (id : Int) (x : String)
    (h : ∀ u ∈ ts, u.id ≠ id) : updateLocalTask ts id x = ts := by
  induction ts with
  | nil => rfl
  | cons u ts ih =>
    have hu : u.id ≠ id := h u (List.mem_cons_self _ _)
    have := ih (fun v hv => h v (List.mem_cons_of_mem _ hv))
    simp [updateLocalTask_cons, hu, this]

theorem flipCompleted_other (r : Nat) (ts : List Task) (h : ∀ u ∈ ts, u.ref ≠ r) :
    flipCompleted r ts = ts := by
  unfold flipCompleted
  induction ts with
  | nil => rfl
  | cons u ts ih =>
    have hu : u.ref ≠ r := h u (List.mem_cons_self _ _)
    have := ih (fun v hv => h v (List.mem_cons_of_mem _ hv))
    simp [hu, this]

theorem flipCompleted_split (pre post : List Task) (t : Task)
    (hn : ((pre ++ t :: post).map (fun u => u.ref)).Nodup) :
    flipCompleted t.ref (pre ++ t :: post) =
      pre ++ { t with completed := !t.completed } :: post := by
  have hpre : ∀ u ∈ pre, u.ref ≠ t.ref := by
    intro u hu he
    rw [List.map_append, List.nodup_append] at hn
    exact hn.2.2 (List.mem_map_of_mem _ hu) (by simp [he])
  have hpost : ∀ u ∈ post, u.ref ≠ t.ref := by
    intro u hu he
    rw [List.map_append, List.nodup_append] at hn
    have h2 := hn.2.1
    simp only [List.map_cons, List.nodup_cons, List.mem_map, not_exists, not_and] at h2
    exact h2.1 u hu he
  have h1 : flipCompleted t.ref (pre ++ t :: post) =
      flipCompleted t.ref pre ++ flipCompleted t.ref [t] ++ flipCompleted t.ref post := by
    simp [flipCompleted]
  rw [h1, flipCompleted_other _ pre hpre, flipCompleted_other _ post hpost]
  simp [flipCompleted]

theorem find_split {ts : List Task} {id : Int} {t : Task}
    (h : ts.find? (fun u => u.id == id) = some t) :
    t.id = id ∧ ∃ pre post, ts = pre ++ t :: post ∧ ∀ u ∈ pre, u.id ≠ id := by
  rw [List.find?_eq_some] at h
  obtain ⟨h1, pre, post, h2, h3⟩ := h
  refine ⟨by simpa using h1, pre, post, h2, ?_⟩
  intro u hu
  simpa using h3 u hu

theorem find_of_mem {ts : List Task} {id : Int} (h : ∃ t ∈ ts, t.id = id) :
    ∃ t, ts.find? (fun u => u.id == id) = some t := by
  cases hf : ts.find? (fun u => u.id == id) with
  | some t => exact ⟨t, rfl⟩
  | none =>
    rw [List.find?_eq_none] at hf
    obtain ⟨t, ht, hid⟩ := h
    exact absurd (by simpa using hid) (hf t ht)

theorem trimChars_all_white (cs : List Char) (h : ∀ c ∈ cs, isWhiteSpace c = true) :
    trimChars cs = [] := by
  unfold trimChars
  have : cs.dropWhile isWhiteSpace = [] := by
    rw [List.dropWhile_eq_nil_iff]
    exact h
  rw [this]
  rfl

theorem trim_all_white (value : String) (h : ∀ c ∈ value.data, isWhiteSpace c = true) :
    trim value = "" := by
  unfold trim
  rw [trimChars_all_white _ h]

/-! Invariants of the reachable states -/

theorem updateLocalTask_map {β : Type} (f : Task → β)
    (hf : ∀ (t : Task) (x : String), f { t with title := x } = f t)
    (ts : List Task) (id : Int) (x : String) : (updateLocalTask ts id x).map f = ts.map f := by
  unfold updateLocalTask
  split
  · exact setTitleAt_map f hf ts _ x
  · rfl

/-- What one step does to the task list and to the two counters. -/
theorem step_tasks {s s1 : State} {a : Action} (h : step s a = some s1) :
    (s1.tasks = s.tasks ∧ s1.nextTaskId = s.nextTaskId ∧ s1.nextRef = s.nextRef) ∨
    (∃ data, a = .fetchLoaded data ∧ s1.tasks = mapItems s.nextRef data ∧
      s1.nextTaskId = nextIdFor (mapItems s.nextRef data) ∧
      s1.nextRef = s.nextRef + data.length) ∨
    (∃ data : Item, s1.tasks =
        { ref := s.nextRef, id := s.nextTaskId, title := data.title,
          completed := data.completed } :: s.tasks ∧
      s1.nextTaskId = addOne s.nextTaskId ∧ s1.nextRef = s.nextRef + 1) ∨
    (∃ id, s1.tasks = s.tasks.filter (fun task => task.id != id) ∧
      s1.nextTaskId = s.nextTaskId ∧ s1.nextRef = s.nextRef) ∨
    (∃ id x, s1.tasks = updateLocalTask s.tasks id x ∧
      s1.nextTaskId = s.nextTaskId ∧ s1.nextRef = s.nextRef) ∨
    (∃ r, s1.tasks = flipCompleted r s.tasks ∧
      s1.nextTaskId = s.nextTaskId ∧ s1.nextRef = s.nextRef) := by
  cases a with
  | fetchTasks =>
    simp only [step, Option.some.injEq] at h
    subst h
    exact Or.inl ⟨rfl, rfl, rfl⟩
  | fetchLoaded data =>
    simp only [step, Option.map_eq_some'] at h
    obtain ⟨s2, h2, rfl⟩ := h
    obtain ⟨_, rfl⟩ := complete_eq_some h2
    exact Or.inr (Or.inl ⟨data, rfl, rfl, rfl, rfl⟩)
  | fetchFailed network =>
    simp only [step, Option.map_eq_some'] at h
    obtain ⟨s2, h2, rfl⟩ := h
    obtain ⟨_, rfl⟩ := complete_eq_some h2
    refine Or.inl ?_
    cases network <;> exact ⟨rfl, rfl, rfl⟩
  | createTask value =>
    simp only [step, Option.some.injEq] at h
    subst h
    refine Or.inl ?_
    unfold createTask
    dsimp only
    split <;> exact ⟨rfl, rfl, rfl⟩
  | createThen taskTitle data =>
    simp only [step, Option.map_eq_some'] at h
    obtain ⟨s2, h2, rfl⟩ := h
    obtain ⟨_, rfl⟩ := complete_eq_some h2
    exact Or.inr (Or.inr (Or.inl ⟨data, rfl, rfl, rfl⟩))
  | createCatch taskTitle =>
    simp only [step, Option.map_eq_some'] at h
    obtain ⟨s2, h2, rfl⟩ := h
    obtain ⟨_, rfl⟩ := complete_eq_some h2
    exact Or.inl ⟨rfl, rfl, rfl⟩
  | deleteTask id confirmed =>
    simp only [step, Option.some.injEq] at h
    subst h
    refine Or.inl ?_
    cases confirmed <;> exact ⟨rfl, rfl, rfl⟩
  | deleteThen id =>
    simp only [step, Option.map_eq_some'] at h
    obtain ⟨s2, h2, rfl⟩ := h
    obtain ⟨_, rfl⟩ := complete_eq_some h2
    exact Or.inr (Or.inr (Or.inr (Or.inl ⟨id, rfl, rfl, rfl⟩)))
  | deleteCatch id =>
    simp only [step, Option.map_eq_some'] at h
    obtain ⟨s2, h2, rfl⟩ := h
    obtain ⟨_, rfl⟩ := complete_eq_some h2
    exact Or.inl ⟨rfl, rfl, rfl⟩
  | editTask id =>
    simp only [step, Option.some.injEq] at h
    subst h
    refine Or.inl ?_
    unfold editTask cancelEdit
    dsimp only
    split <;> split <;> (try split) <;> exact ⟨rfl, rfl, rfl⟩
  | saveEdit id value =>
    simp only [step] at h
    refine Or.inl ?_
    unfold saveEdit at h
    split at h
    · dsimp only at h
      split at h
      · simp only [Option.some.injEq] at h
        subst h
        exact ⟨rfl, rfl, rfl⟩
      · split at h
        · simp only [Option.some.injEq] at h
          subst h
          unfold cancelEdit
          split <;> exact ⟨rfl, rfl, rfl⟩
        · simp only [Option.some.injEq] at h
          subst h
          exact ⟨rfl, rfl, rfl⟩
    · simp at h
  | saveThen id newTitle =>
    simp only [step, Option.map_eq_some'] at h
    obtain ⟨s2, h2, rfl⟩ := h
    obtain ⟨_, rfl⟩ := complete_eq_some h2
    exact Or.inr (Or.inr (Or.inr (Or.inr (Or.inl ⟨id, newTitle, rfl, rfl, rfl⟩))))
  | saveCatch id newTitle =>
    simp only [step, Option.map_eq_some'] at h
    obtain ⟨s2, h2, rfl⟩ := h
    obtain ⟨_, rfl⟩ := complete_eq_some h2
    exact Or.inl ⟨rfl, rfl, rfl⟩
  | cancelEdit =>
    simp only [step, Option.some.injEq] at h
    subst h
    refine Or.inl ?_
    unfold cancelEdit
    split <;> exact ⟨rfl, rfl, rfl⟩
  | toggleTaskComplete id =>
    simp only [step, Option.some.injEq] at h
    subst h
    refine Or.inl ?_
    unfold toggleTaskComplete
    split <;> exact ⟨rfl, rfl, rfl⟩
  | toggleThen id task =>
    simp only [step, Option.map_eq_some'] at h
    obtain ⟨s2, h2, rfl⟩ := h
    obtain ⟨_, rfl⟩ := complete_eq_some h2
    exact Or.inr (Or.inr (Or.inr (Or.inr (Or.inr ⟨task, rfl, rfl, rfl⟩))))
  | toggleCatch id task =>
    simp only [step, Option.map_eq_some'] at h
    obtain ⟨s2, h2, rfl⟩ := h
    obtain ⟨_, rfl⟩ := complete_eq_some h2
    exact Or.inl ⟨rfl, rfl, rfl⟩

theorem safeInteger_iff (i : Int) :
    safeInteger i = true ↔ -(twoPow53 : Int) < i ∧ i < (twoPow53 : Int) := by
  simp [safeInteger]

theorem nextIdFor_safe (ts : List Task)
    (h : ∀ i ∈ ts.map (fun t => t.id), safeInteger i = true) :
    -(twoPow53 : Int) < nextIdFor ts ∧
    (∀ i ∈ ts.map (fun t => t.id), i < nextIdFor ts) ∧
    (ts = [] → nextIdFor ts = 1) ∧
    (ts ≠ [] → nextIdFor ts - 1 ∈ ts.map (fun t => t.id) ∧
      ∀ i ∈ ts.map (fun t => t.id), i ≤ nextIdFor ts - 1) := by
  unfold nextIdFor
  split
  · rename_i he
    rw [he]
    refine ⟨by unfold twoPow53; omega, by simp, fun _ => rfl, ?_⟩
    intro hne
    exact absurd (List.map_eq_nil_iff.1 he) hne
  · rename_i x xs he
    rw [he] at h ⊢
    have hmem := mathMax_mem x xs
    have hle := le_mathMax x xs
    have hsafe := (safeInteger_iff _).1 (h _ hmem)
    rw [addOne_exact _ hsafe.1 hsafe.2]
    have hall : ∀ i ∈ x :: xs, i ≤ mathMax x xs := by
      intro i hi
      rcases List.mem_cons.1 hi with rfl | hi
      · exact hle.1
      · exact hle.2 i hi
    refine ⟨by omega, ?_, ?_, ?_⟩
    · intro i hi
      have := hall i hi
      omega
    · intro hnil
      rw [hnil] at he
      simp at he
    · intro _
      simp only [add_sub_cancel_right]
      exact ⟨hmem, hall⟩

theorem safePayload_loaded {data : List Item} (hp : safePayload (.fetchLoaded data) = true)
    (r : Nat) : ∀ i ∈ (mapItems r data).map (fun t => t.id), safeInteger i = true := by
  rw [mapItems_map_id]
  intro i hi
  obtain ⟨d, hd, rfl⟩ := List.mem_map.1 hi
  simp only [safePayload, List.all_eq_true] at hp
  exact hp d hd

theorem step_counterInv {s s1 : State} {a : Action} (h : step s a = some s1)
    (hp : safePayload a = true) (hi : CounterInv s) : CounterInv s1 := by
  unfold CounterInv at hi ⊢
  rcases step_tasks h with ⟨ht, hn, _⟩ | ⟨data, ha, ht, hn, _⟩ | ⟨data, ht, hn, _⟩ |
    ⟨id, ht, hn, _⟩ | ⟨id, x, ht, hn, _⟩ | ⟨r, ht, hn, _⟩
  · rw [ht, hn]
    exact hi
  · subst ha
    have := nextIdFor_safe _ (safePayload_loaded hp s.nextRef)
    rw [ht, hn]
    exact ⟨this.1, fun _ => this.2.1⟩
  · rw [ht, hn]
    by_cases hlt : s.nextTaskId < (twoPow53 : Int)
    · rw [addOne_exact _ hi.1 hlt]
      refine ⟨by omega, ?_⟩
      intro _ i hmem
      simp only [List.map_cons, List.mem_cons] at hmem
      rcases hmem with rfl | hmem
      · omega
      · have := hi.2 hlt i hmem
        omega
    · have hge := addOne_ge _ (not_lt.1 hlt)
      refine ⟨by unfold twoPow53 at hge ⊢; omega, ?_⟩
      intro hc
      omega
  · rw [ht, hn]
    refine ⟨hi.1, ?_⟩
    intro hlt i hmem
    exact hi.2 hlt i ((List.filter_sublist _).map _ |>.subset hmem)
  · rw [ht, hn, updateLocalTask_map (fun t => t.id) (fun _ _ => rfl)]
    exact hi
  · rw [ht, hn, flipCompleted_map (fun t => t.id) (fun _ _ => rfl)]
    exact hi

theorem step_distinctInv {s s1 : State} {a : Action} (h : step s a = some s1)
    (hp : distinctPayload a = true) (hi : CounterInv s) (hn : DistinctInv s) :
    DistinctInv s1 := by
  unfold DistinctInv at hn ⊢
  rcases step_tasks h with ⟨ht, hc, _⟩ | ⟨data, ha, ht, hc, _⟩ | ⟨data, ht, hc, _⟩ |
    ⟨id, ht, hc, _⟩ | ⟨id, x, ht, hc, _⟩ | ⟨r, ht, hc, _⟩
  · rw [ht, hc]
    exact hn
  · subst ha
    intro _
    rw [ht, mapItems_map_id]
    exact of_decide_eq_true hp
  · rw [ht, hc]
    intro hlt
    have hlt0 : s.nextTaskId < (twoPow53 : Int) := by
      by_contra hge
      have := addOne_ge _ (not_lt.1 hge)
      omega
    simp only [List.map_cons, List.nodup_cons]
    refine ⟨?_, hn hlt0⟩
    intro hmem
    have := hi.2 hlt0 _ hmem
    omega
  · rw [ht, hc]
    intro hlt
    exact (hn hlt).sublist ((List.filter_sublist _).map _)
  · rw [ht, hc, updateLocalTask_map (fun t => t.id) (fun _ _ => rfl)]
    exact hn
  · rw [ht, hc, flipCompleted_map (fun t => t.id) (fun _ _ => rfl)]
    exact hn

theorem step_refsFresh {s s1 : State} {a : Action} (h : step s a = some s1)
    (hr : RefsFresh s) : RefsFresh s1 := by
  unfold RefsFresh at hr ⊢
  have hb : ∀ r ∈ s.tasks.map (fun t => t.ref), r < s.nextRef := by
    intro r hmem
    obtain ⟨t, ht, rfl⟩ := List.mem_map.1 hmem
    exact hr.1 t ht
  have key : ∀ ts : List Task, (∀ r ∈ ts.map (fun t => t.ref), r < s1.nextRef) →
      ∀ t ∈ ts, t.ref < s1.nextRef := fun ts hts t ht => hts _ (List.mem_map_of_mem _ ht)
  rcases step_tasks h with ⟨ht, _, hn⟩ | ⟨data, ha, ht, _, hn⟩ | ⟨data, ht, _, hn⟩ |
    ⟨id, ht, _, hn⟩ | ⟨id, x, ht, _, hn⟩ | ⟨r, ht, _, hn⟩
  · rw [ht, hn]
    exact hr
  · rw [ht, hn]
    exact ⟨fun t hmem => (mapItems_ref_bounds _ _ t hmem).2, mapItems_ref_nodup _ _⟩
  · rw [ht, hn]
    refine ⟨?_, ?_⟩
    · intro t hmem
      rcases List.mem_cons.1 hmem with rfl | hmem
      · simp
      · have := hr.1 t hmem
        omega
    · simp only [List.map_cons, List.nodup_cons]
      refine ⟨?_, hr.2⟩
      intro hmem
      have := hb _ hmem
      omega
  · rw [ht, hn]
    exact ⟨fun t hmem => hr.1 t (List.mem_of_mem_filter hmem),
      hr.2.sublist ((List.filter_sublist _).map _)⟩
  · refine ⟨key _ ?_, ?_⟩
    · rw [ht, hn, updateLocalTask_map (fun t => t.ref) (fun _ _ => rfl)]
      exact hb
    · rw [ht, updateLocalTask_map (fun t => t.ref) (fun _ _ => rfl)]
      exact hr.2
  · refine ⟨key _ ?_, ?_⟩
    · rw [ht, hn, flipCompleted_map (fun t => t.ref) (fun _ _ => rfl)]
      exact hb
    · rw [ht, flipCompleted_map (fun t => t.ref) (fun _ _ => rfl)]
      exact hr.2

theorem run_refsFresh {s s1 : State} {as : List Action} (h : run s as = some s1)
    (hr : RefsFresh s) : RefsFresh s1 := by
  induction as generalizing s with
  | nil =>
    simp only [run, Option.some.injEq] at h
    subst h
    exact hr
  | cons a as ih =>
    simp only [run, Option.bind_eq_some] at h
    obtain ⟨s2, h2, h3⟩ := h
    exact ih h3 (step_refsFresh h2 hr)

theorem run_counterInv {s s1 : State} {as : List Action} (h : run s as = some s1)
    (hp : ∀ a ∈ as, safePayload a = true) (hi : CounterInv s) : CounterInv s1 := by
  induction as generalizing s with
  | nil =>
    simp only [run, Option.some.injEq] at h
    subst h
    exact hi
  | cons a as ih =>
    simp only [run, Option.bind_eq_some] at h
    obtain ⟨s2, h2, h3⟩ := h
    exact ih h3 (fun b hb => hp b (List.mem_cons_of_mem _ hb))
      (step_counterInv h2 (hp a (List.mem_cons_self _ _)) hi)

theorem run_distinctInv {s s1 : State} {as : List Action} (h : run s as = some s1)
    (hp : ∀ a ∈ as, safePayload a = true) (hd : ∀ a ∈ as, distinctPayload a = true)
    (hi : CounterInv s) (hn : DistinctInv s) : DistinctInv s1 := by
  induction as generalizing s with
  | nil =>
    simp only [run, Option.some.injEq] at h
    subst h
    exact hn
  | cons a as ih =>
    simp only [run, Option.bind_eq_some] at h
    obtain ⟨s2, h2, h3⟩ := h
    have hpa := hp a (List.mem_cons_self _ _)
    have hda := hd a (List.mem_cons_self _ _)
    exact ih h3 (fun b hb => hp b (List.mem_cons_of_mem _ hb))
      (fun b hb => hd b (List.mem_cons_of_mem _ hb)) (step_counterInv h2 hpa hi)
      (step_distinctInv h2 hda hi hn)

theorem init_counterInv : CounterInv init := by
  refine ⟨by unfold twoPow53; simp [init], ?_⟩
  intro _ i hi
  simp [init] at hi

theorem init_distinctInv : DistinctInv init := by
  intro _
  simp [init]

theorem init_refsFresh : RefsFresh init := by
  simp [RefsFresh, init]

theorem reachable_refsFresh {s : State} (h : Reachable s) : RefsFresh s := by
  obtain ⟨as, has⟩ := h
  exact run_refsFresh has init_refsFresh

/-- An event that is not one of saveEdit keeps savingTaskId and keeps every
save request in flight; it keeps editingTaskId too when the edited task is
being saved and the event is not editTask for another task. -/
theorem step_not_save {s s1 : State} {a : Action} (h : step s a = some s1)
    (ha : a.isSave = false) :
    s1.savingTaskId = s.savingTaskId ∧
    (∀ i x, Request.save i x ∈ s.pending → Request.save i x ∈ s1.pending) ∧
    (∀ id, s.savingTaskId = some id → s.editingTaskId = some id →
      a.editsOther id = false → s1.editingTaskId = some id) := by
  cases a with
  | fetchTasks =>
    simp only [step, Option.some.injEq] at h
    subst h
    exact ⟨rfl, fun i x hm => by simp [fetchTasks, hm], fun _ _ he _ => he⟩
  | fetchLoaded data =>
    simp only [step, Option.map_eq_some'] at h
    obtain ⟨s2, h2, rfl⟩ := h
    obtain ⟨_, rfl⟩ := complete_eq_some h2
    exact ⟨rfl, fun i x hm => by simp [fetchTasksLoaded, showStatus, hm], fun _ _ he _ => he⟩
  | fetchFailed network =>
    simp only [step, Option.map_eq_some'] at h
    obtain ⟨s2, h2, rfl⟩ := h
    obtain ⟨_, rfl⟩ := complete_eq_some h2
    cases network <;>
      exact ⟨rfl, fun i x hm => by simp [fetchTasksFailed, showStatus, hm], fun _ _ he _ => he⟩
  | createTask value =>
    simp only [step, Option.some.injEq] at h
    subst h
    unfold createTask
    dsimp only
    split
    · exact ⟨rfl, fun i x hm => hm, fun _ _ he _ => he⟩
    · exact ⟨rfl, fun i x hm => by simp [hm], fun _ _ he _ => he⟩
  | createThen taskTitle data =>
    simp only [step, Option.map_eq_some'] at h
    obtain ⟨s2, h2, rfl⟩ := h
    obtain ⟨_, rfl⟩ := complete_eq_some h2
    exact ⟨rfl, fun i x hm => by simp [createTaskThen, showStatus, hm], fun _ _ he _ => he⟩
  | createCatch taskTitle =>
    simp only [step, Option.map_eq_some'] at h
    obtain ⟨s2, h2, rfl⟩ := h
    obtain ⟨_, rfl⟩ := complete_eq_some h2
    exact ⟨rfl, fun i x hm => by simp [createTaskCatch, showStatus, hm], fun _ _ he _ => he⟩
  | deleteTask id confirmed =>
    simp only [step, Option.some.injEq] at h
    subst h
    cases confirmed
    · exact ⟨rfl, fun i x hm => hm, fun _ _ he _ => he⟩
    · exact ⟨rfl, fun i x hm => by simp [deleteTask, hm], fun _ _ he _ => he⟩
  | deleteThen id =>
    simp only [step, Option.map_eq_some'] at h
    obtain ⟨s2, h2, rfl⟩ := h
    obtain ⟨_, rfl⟩ := complete_eq_some h2
    exact ⟨rfl, fun i x hm => by simp [deleteTaskThen, showStatus, hm], fun _ _ he _ => he⟩
  | deleteCatch id =>
    simp only [step, Option.map_eq_some'] at h
    obtain ⟨s2, h2, rfl⟩ := h
    obtain ⟨_, rfl⟩ := complete_eq_some h2
    exact ⟨rfl, fun i x hm => by simp [deleteTaskCatch, showStatus, hm], fun _ _ he _ => he⟩
  | editTask j =>
    simp only [step, Option.some.injEq] at h
    subst h
    refine ⟨?_, ?_, ?_⟩
    · unfold editTask cancelEdit
      dsimp only
      split <;> split <;> (try split) <;> rfl
    · intro i x hm
      unfold editTask cancelEdit
      dsimp only
      split <;> split <;> (try split) <;> exact hm
    · intro id hs he hj
      have hji : j = id := by simpa [Action.editsOther] using hj
      subst hji
      unfold editTask
      simp only [he, ne_eq, not_true_eq_false, and_false, if_false]
      split
      · exact he
      · rfl
  | saveEdit id value => simp [Action.isSave] at ha
  | saveThen id newTitle => simp [Action.isSave] at ha
  | saveCatch id newTitle => simp [Action.isSave] at ha
  | cancelEdit =>
    simp only [step, Option.some.injEq] at h
    subst h
    refine ⟨?_, ?_, ?_⟩
    · unfold cancelEdit
      split <;> rfl
    · intro i x hm
      unfold cancelEdit
      split <;> exact hm
    · intro id hs he _
      unfold cancelEdit
      simp [hs, he, showStatus]
  | toggleTaskComplete id =>
    simp only [step, Option.some.injEq] at h
    subst h
    unfold toggleTaskComplete
    split
    · exact ⟨rfl, fun i x hm => hm, fun _ _ he _ => he⟩
    · exact ⟨rfl, fun i x hm => by simp [hm], fun _ _ he _ => he⟩
  | toggleThen id task =>
    simp only [step, Option.map_eq_some'] at h
    obtain ⟨s2, h2, rfl⟩ := h
    obtain ⟨_, rfl⟩ := complete_eq_some h2
    exact ⟨rfl, fun i x hm => by simp [toggleTaskCompleteThen, showStatus, hm],
      fun _ _ he _ => he⟩
  | toggleCatch id task =>
    simp only [step, Option.map_eq_some'] at h
    obtain ⟨s2, h2, rfl⟩ := h
    obtain ⟨_, rfl⟩ := complete_eq_some h2
    exact ⟨rfl, fun i x hm => by simp [toggleTaskCompleteCatch, showStatus, hm],
      fun _ _ he _ => he⟩

theorem run_not_save {s s1 : State} {as : List Action} (h : run s as = some s1)
    (ha : ∀ a ∈ as, a.isSave = false) (id : Int) (hs : s.savingTaskId = some id) :
    s1.savingTaskId = some id ∧
    (∀ i x, Request.save i x ∈ s.pending → Request.save i x ∈ s1.pending) ∧
    (s.editingTaskId = some id → (∀ a ∈ as, a.editsOther id = false) →
      s1.editingTaskId = some id) := by
  induction as generalizing s with
  | nil =>
    simp only [run, Option.some.injEq] at h
    subst h
    exact ⟨hs, fun _ _ hm => hm, fun he _ => he⟩
  | cons a as ih =>
    simp only [run, Option.bind_eq_some] at h
    obtain ⟨s2, h2, h3⟩ := h
    have hstep := step_not_save h2 (ha a (List.mem_cons_self _ _))
    have hrest := ih h3 (fun b hb => ha b (List.mem_cons_of_mem _ hb)) (hstep.1.trans hs)
    refine ⟨hrest.1, fun i x hm => hrest.2.1 i x (hstep.2.1 i x hm), ?_⟩
    intro he ho
    exact hrest.2.2 (hstep.2.2 id hs he (ho a (List.mem_cons_self _ _)))
      (fun b hb => ho b (List.mem_cons_of_mem _ hb))

/-! The claims -/

/-- C1 (the code breaks the claim). Load two tasks, edit task 1, submit a new
title and press Edit on task 2 while the request is in flight: cancelEdit
refuses, editTask goes on, and the state has savingTaskId = 1 and
editingTaskId = 2, so savingTaskId is set and differs from editingTaskId.
When the request of task 1 then succeeds, the edit of task 2 is dropped. -/
theorem C1_editTask_during_save :
    (run init switchWhileSaving).map (fun s => (s.savingTaskId, s.editingTaskId)) =
      some (some 1, some 2) ∧
    (run init succeedAfterSwitch).map (fun s => (s.savingTaskId, s.editingTaskId)) =
      some (none, none) := by
  decide

/-- C2 as stated fails: with task 1 in edit mode, editTask(99) for the absent
id 99 cancels that edit, so editingTaskId goes from 1 to null and
originalTaskTitle from A to the empty string. -/
theorem C2_counterexample :
    (run init editingOne).map (fun s =>
        (s.tasks.map (fun t => t.id), s.editingTaskId, s.originalTaskTitle,
          (editTask s 99).editingTaskId, (editTask s 99).originalTaskTitle)) =
      some ([1], some 1, "A", none, "") := by
  decide

/-- C2 amended. For an id that no task of the list has, editTask(id) is
cancelEdit() when another task is in edit mode and is no change otherwise. It
leaves tasks, nextTaskId, savingTaskId and the requests in flight unchanged;
it leaves editingTaskId and originalTaskTitle unchanged when editingTaskId is
null, equals id, or equals savingTaskId; in the remaining case both are
cleared. -/
theorem C2_editTask_absent_id (s : State) (id : Int) (h : ∀ t ∈ s.tasks, t.id ≠ id) :
    editTask s id =
      (if s.editingTaskId ≠ none ∧ s.editingTaskId ≠ some id then cancelEdit s else s) ∧
    (editTask s id).tasks = s.tasks ∧
    (editTask s id).nextTaskId = s.nextTaskId ∧
    (editTask s id).savingTaskId = s.savingTaskId ∧
    (editTask s id).pending = s.pending ∧
    ((s.editingTaskId = none ∨ s.editingTaskId = some id ∨
        s.savingTaskId = s.editingTaskId) →
      (editTask s id).editingTaskId = s.editingTaskId ∧
      (editTask s id).originalTaskTitle = s.originalTaskTitle) ∧
    (¬(s.editingTaskId = none ∨ s.editingTaskId = some id ∨
        s.savingTaskId = s.editingTaskId) →
      (editTask s id).editingTaskId = none ∧ (editTask s id).originalTaskTitle = "") := by
  have hfind : ∀ s1 : State, s1.tasks = s.tasks →
      s1.tasks.find? (fun t => t.id == id) = none := by
    intro s1 h1
    rw [h1, List.find?_eq_none]
    intro t ht
    simpa using h t ht
  have hct : (cancelEdit s).tasks = s.tasks := by
    unfold cancelEdit
    split <;> rfl
  have heq : editTask s id =
      (if s.editingTaskId ≠ none ∧ s.editingTaskId ≠ some id then cancelEdit s else s) := by
    unfold editTask
    dsimp only
    by_cases hc : s.editingTaskId ≠ none ∧ s.editingTaskId ≠ some id
    · rw [if_pos hc, hfind _ hct]
    · rw [if_neg hc, hfind _ rfl]
  refine ⟨heq, ?_⟩
  rw [heq]
  unfold cancelEdit
  by_cases h1 : s.editingTaskId = none
  · simp [h1]
  · by_cases h2 : s.editingTaskId = some id
    · simp [h2]
    · by_cases h3 : s.savingTaskId = s.editingTaskId
      · simp [h1, h2, h3, showStatus]
      · simp [h1, h2, h3]

/-- C2 witness: on the state reached by editing the only task, for the absent
id 99. -/
theorem C2_editTask_absent_id_witness :
    (∀ t ∈ afterEditingOne.tasks, t.id ≠ 99) ∧
    (editTask afterEditingOne 99).savingTaskId = afterEditingOne.savingTaskId :=
  ⟨by decide, (C2_editTask_absent_id afterEditingOne 99 (by decide)).2.2.2.1⟩

/-- C3 as stated fails: in the reachable state where task 1 is being saved,
editTask(1) followed by cancelEdit() ends with editingTaskId = 1, since
cancelEdit refuses while the edited task is being saved. -/
theorem C3_counterexample :
    (run init savingOne).map (fun s =>
        (s.tasks.map (fun t => t.id), s.savingTaskId,
          (cancelEdit (editTask s 1)).editingTaskId)) =
      some ([1], some 1, some 1) := by
  decide

/-- C3 amended. For every state and every task T of the list that is not the
task being saved (savingTaskId is not T.id), editTask(T.id) followed by
cancelEdit() leaves the task list, and so the title of T, unchanged and ends
with editingTaskId null and originalTaskTitle empty. -/
theorem C3_edit_then_cancel (s : State) (T : Task) (hT : T ∈ s.tasks)
    (hs : s.savingTaskId ≠ some T.id) :
    (cancelEdit (editTask s T.id)).tasks = s.tasks ∧
    (cancelEdit (editTask s T.id)).editingTaskId = none ∧
    (cancelEdit (editTask s T.id)).originalTaskTitle = "" := by
  have hfind : ∀ s1 : State, s1.tasks = s.tasks →
      ∃ u, s1.tasks.find? (fun t => t.id == T.id) = some u := by
    intro s1 h1
    rw [h1]
    exact find_of_mem ⟨T, hT, rfl⟩
  have hct : (cancelEdit s).tasks = s.tasks ∧ (cancelEdit s).savingTaskId = s.savingTaskId := by
    unfold cancelEdit
    split <;> exact ⟨rfl, rfl⟩
  have hedit : (editTask s T.id).tasks = s.tasks ∧
      (editTask s T.id).editingTaskId = some T.id ∧
      (editTask s T.id).savingTaskId = s.savingTaskId := by
    unfold editTask
    dsimp only
    by_cases hc : s.editingTaskId ≠ none ∧ s.editingTaskId ≠ some T.id
    · obtain ⟨u, hu⟩ := hfind _ hct.1
      rw [if_pos hc, hu]
      exact ⟨hct.1, rfl, hct.2⟩
    · obtain ⟨u, hu⟩ := hfind s rfl
      rw [if_neg hc, hu]
      exact ⟨rfl, rfl, rfl⟩
  obtain ⟨h1, h2, h3⟩ := hedit
  have hne : ¬((editTask s T.id).editingTaskId ≠ none ∧
      (editTask s T.id).savingTaskId = (editTask s T.id).editingTaskId) := by
    rw [h2, h3]
    exact fun hc => hs hc.2
  unfold cancelEdit
  rw [if_neg hne]
  exact ⟨h1, rfl, rfl⟩

/-- C3 witness: on the state reached by editing the only task, for that task. -/
theorem C3_edit_then_cancel_witness :
    ({ ref := 0, id := 1, title := "A", completed := false } : Task) ∈ afterEditingOne.tasks ∧
    afterEditingOne.savingTaskId ≠ some 1 ∧
    (cancelEdit (editTask afterEditingOne 1)).editingTaskId = none :=
  ⟨by decide, by decide,
    (C3_edit_then_cancel afterEditingOne
      { ref := 0, id := 1, title := "A", completed := false } (by decide) (by decide)).2.1⟩

theorem editing_of_editInputRendered {s : State} {id : Int}
    (h : editInputRendered s id = true) : s.editingTaskId = some id := by
  unfold editInputRendered at h
  rw [List.any_eq_true] at h
  obtain ⟨t, _, ht⟩ := h
  simp only [Bool.and_eq_true, beq_iff_eq] at ht
  rw [ht.1, ht.2]

/-- C4 as stated fails while the request of saveEdit(1) with the new title C
is in flight. After Edit on task 2 and saveEdit(2) the slot savingTaskId
holds 2; when the request of task 2 then fails the slot is null with the
request of task 1 still in flight; and when the request of task 1 fails after
Edit on task 2, editingTaskId is 2 and not 1. -/
theorem C4_counterexample :
    (run init saveSecondWhileSaving).map (fun s =>
        (s.savingTaskId, decide (Request.save 1 "C" ∈ s.pending))) =
      some (some 2, true) ∧
    (run init secondFailsWhileSaving).map (fun s =>
        (s.savingTaskId, decide (Request.save 1 "C" ∈ s.pending))) =
      some (none, true) ∧
    (run init failAfterSwitch).map (fun s => (s.savingTaskId, s.editingTaskId)) =
      some (none, some 2) := by
  decide

/-- C4 amended. With the edit input of task id in the document and a staged
title whose trimmed value is non-empty and differs from originalTaskTitle,
saveEdit(id) sets savingTaskId to id and sends one update request. While that
request is in flight, every sequence of events other than calls and
completions of saveEdit keeps savingTaskId equal to id, and keeps
editingTaskId equal to id when it contains no editTask for another task.
When the request then succeeds, the first task with that id, if there is one,
gets the trimmed title, no other task changes, and editingTaskId,
originalTaskTitle and savingTaskId are cleared. When it fails, savingTaskId
is null and editingTaskId and the task list are as before the failure. -/
theorem C4_saveEdit_lifecycle (s : State) (id : Int) (value : String)
    (hin : editInputRendered s id = true) (hne : trim value ≠ "")
    (hdiff : trim value ≠ s.originalTaskTitle) :
    ∃ s1, saveEdit s id value = some s1 ∧
      s1.savingTaskId = some id ∧ s1.editingTaskId = some id ∧ s1.tasks = s.tasks ∧
      s1.pending = s.pending ++ [Request.save id (trim value)] ∧
      ∀ (as : List Action) (s2 : State), (∀ a ∈ as, a.isSave = false) →
        run s1 as = some s2 →
        s2.savingTaskId = some id ∧
        ((∀ a ∈ as, a.editsOther id = false) → s2.editingTaskId = some id) ∧
        (∃ s3, step s2 (.saveThen id (trim value)) = some s3 ∧
          s3.editingTaskId = none ∧ s3.originalTaskTitle = "" ∧ s3.savingTaskId = none ∧
          (∀ pre t post, s2.tasks = pre ++ t :: post → t.id = id →
            (∀ u ∈ pre, u.id ≠ id) →
            s3.tasks = pre ++ { t with title := trim value } :: post) ∧
          ((∀ u ∈ s2.tasks, u.id ≠ id) → s3.tasks = s2.tasks)) ∧
        (∃ s3, step s2 (.saveCatch id (trim value)) = some s3 ∧
          s3.savingTaskId = none ∧ s3.editingTaskId = s2.editingTaskId ∧
          s3.tasks = s2.tasks) := by
  have he := editing_of_editInputRendered hin
  refine ⟨{ s with savingTaskId := some id,
                   pending := s.pending ++ [Request.save id (trim value)] }, ?_, rfl, he, rfl,
    rfl, ?_⟩
  · unfold saveEdit
    rw [if_pos hin]
    dsimp only
    rw [if_neg hne, if_neg hdiff]
  · intro as s2 has hrun
    have hr := run_not_save hrun has id rfl
    have hmem : Request.save id (trim value) ∈ s2.pending :=
      hr.2.1 id (trim value) (by simp)
    refine ⟨hr.1, hr.2.2 he, ?_, ?_⟩
    · refine ⟨saveEditThen { s2 with pending := s2.pending.erase (Request.save id (trim value)) }
        id (trim value), ?_, rfl, rfl, rfl, ?_, ?_⟩
      · simp only [step, complete, hmem, if_true, Option.map_some']
      · intro pre t post hsplit ht hpre
        show updateLocalTask s2.tasks id (trim value) = _
        rw [hsplit]
        exact updateLocalTask_split pre post t id _ ht hpre
      · intro habs
        exact updateLocalTask_absent _ _ _ habs
    · refine ⟨saveEditCatch { s2 with pending := s2.pending.erase (Request.save id (trim value)) },
        ?_, rfl, rfl, rfl⟩
      simp only [step, complete, hmem, if_true, Option.map_some']

/-- C4 witness: task 1 is in edit mode with original title A and the staged
title is B with blanks around it. -/
theorem C4_saveEdit_lifecycle_witness :
    editInputRendered afterEditingOne 1 = true ∧ trim " B " ≠ "" ∧
    trim " B " ≠ afterEditingOne.originalTaskTitle ∧
    ∃ s1 s3, saveEdit afterEditingOne 1 " B " = some s1 ∧ s1.savingTaskId = some 1 ∧
      step s1 (.saveThen 1 (trim " B ")) = some s3 ∧ s3.savingTaskId = none := by
  obtain ⟨s1, h1, h2, -, -, -, hall⟩ :=
    C4_saveEdit_lifecycle afterEditingOne 1 " B " (by decide) (by decide) (by decide)
  obtain ⟨-, -, ⟨s3, h3, -, -, h4, -⟩, -⟩ := hall [] s1 (by simp) rfl
  exact ⟨by decide, by decide, by decide, s1, s3, h1, h2, h3, h4⟩

/-- C5 as stated fails in two reachable states where task 1 is being edited.
First, its original title is empty and the staged title is blank: saveEdit(1)
reports the empty title and leaves editingTaskId = 1. Second, task 1 is
being saved and the staged title is its original title A: cancelEdit refuses
and editingTaskId stays 1. -/
theorem C5_counterexample :
    (run init editingUntitled).map (fun s =>
        (s.editingTaskId, s.originalTaskTitle, trim "  ",
          (saveEdit s 1 "  ").map (fun s1 => s1.editingTaskId))) =
      some (some 1, "", "", some (some 1)) ∧
    (run init savingOne).map (fun s =>
        (s.editingTaskId, s.originalTaskTitle, trim " A ",
          (saveEdit s 1 " A ").map (fun s1 => s1.editingTaskId))) =
      some (some 1, "A", "A", some (some 1)) := by
  decide

/-- C5 amended. With the edit input of task id in the document, no save of
that task in progress (savingTaskId is not id) and a staged title whose
trimmed value is non-empty and equal to originalTaskTitle, saveEdit(id) does
what cancelEdit() does: it sends no request, clears editingTaskId and
originalTaskTitle and leaves the task list unchanged. -/
theorem C5_saveEdit_same_title (s : State) (id : Int) (value : String)
    (hin : editInputRendered s id = true) (hne : trim value ≠ "")
    (hsame : trim value = s.originalTaskTitle) (hs : s.savingTaskId ≠ some id) :
    ∃ s1, saveEdit s id value = some s1 ∧ s1 = cancelEdit s ∧ s1.pending = s.pending ∧
      s1.editingTaskId = none ∧ s1.originalTaskTitle = "" ∧ s1.tasks = s.tasks ∧
      s1.nextTaskId = s.nextTaskId ∧ s1.savingTaskId = s.savingTaskId := by
  have he := editing_of_editInputRendered hin
  have hc : ¬(s.editingTaskId ≠ none ∧ s.savingTaskId = s.editingTaskId) := by
    rw [he]
    exact fun h => hs h.2
  refine ⟨cancelEdit s, ?_, rfl, ?_⟩
  · unfold saveEdit
    rw [if_pos hin]
    dsimp only
    rw [if_neg hne, if_pos hsame]
  · unfold cancelEdit
    rw [if_neg hc]
    exact ⟨rfl, rfl, rfl, rfl, rfl, rfl⟩

/-- C5 witness: task 1 is in edit mode with original title A, nothing is being
saved, and the staged title is A with blanks around it. -/
theorem C5_saveEdit_same_title_witness :
    editInputRendered afterEditingOne 1 = true ∧ trim " A " ≠ "" ∧
    trim " A " = afterEditingOne.originalTaskTitle ∧ afterEditingOne.savingTaskId ≠ some 1 ∧
    ∃ s1, saveEdit afterEditingOne 1 " A " = some s1 ∧ s1 = cancelEdit afterEditingOne :=
  ⟨by decide, by decide, by decide, by decide,
    (C5_saveEdit_same_title afterEditingOne 1 " A " (by decide) (by decide) (by decide)
      (by decide)).imp (fun _ h => ⟨h.1, h.2.1⟩)⟩

theorem mapItems_eq_nil (r : Nat) (data : List Item) : mapItems r data = [] ↔ data = [] := by
  cases data <;> simp [mapItems]

/-- C6 as stated fails, since the sums are double sums. Loading the ids 1
and 2^53 sets nextTaskId to 2^53, the greatest id and not one more. Loading
the safe id 2^53 - 1 and creating one task gives that task the id 2^53 and
leaves nextTaskId at 2^53. Loading the id -2^54 sets nextTaskId to -2^54. -/
theorem C6_counterexample :
    (run init loadUpToLimit).map (fun s => (s.tasks.map (fun t => t.id), s.nextTaskId)) =
      some ([1, 9007199254740992], 9007199254740992) ∧
    (run init createOnceAtLimit).map (fun s => (s.tasks.map (fun t => t.id), s.nextTaskId)) =
      some ([9007199254740992, 9007199254740991], 9007199254740992) ∧
    (run init loadFarNegative).map (fun s => (s.tasks.map (fun t => t.id), s.nextTaskId)) =
      some ([-18014398509481984], -18014398509481984) := by
  decide

/-- C6 amended. In every state reached from the initial state by events whose
loaded payloads carry safe integer ids (absolute value below 2^53), while
nextTaskId is below 2^53 it is greater than the id of every task of the list.
When a fetchTasks request succeeds with safe integer ids, the new list has
the ids of the payload, nextTaskId is 1 for an empty payload and otherwise
one more than the greatest id of the payload, and it is greater than every id
of the new list. -/
theorem C6_nextTaskId_above_ids (as : List Action) (s : State)
    (hp : ∀ a ∈ as, safePayload a = true) (h : run init as = some s) :
    (s.nextTaskId < (twoPow53 : Int) → ∀ t ∈ s.tasks, t.id < s.nextTaskId) ∧
    ∀ data : List Item, (∀ d ∈ data, safeInteger d.id = true) →
      Request.fetch ∈ s.pending →
      ∃ s1, step s (.fetchLoaded data) = some s1 ∧
        s1.tasks.map (fun t => t.id) = data.map (fun d => d.id) ∧
        (data = [] → s1.nextTaskId = 1) ∧
        (data ≠ [] → s1.nextTaskId - 1 ∈ data.map (fun d => d.id) ∧
          ∀ i ∈ data.map (fun d => d.id), i ≤ s1.nextTaskId - 1) ∧
        (∀ t ∈ s1.tasks, t.id < s1.nextTaskId) := by
  refine ⟨?_, ?_⟩
  · intro hlt t ht
    exact (run_counterInv h hp init_counterInv).2 hlt t.id (List.mem_map_of_mem _ ht)
  · intro data hsafe hmem
    have hsp : safePayload (.fetchLoaded data) = true := by
      simp only [safePayload, List.all_eq_true]
      exact hsafe
    have hnext := nextIdFor_safe _ (safePayload_loaded hsp s.nextRef)
    rw [mapItems_map_id] at hnext
    refine ⟨fetchTasksLoaded { s with pending := s.pending.erase Request.fetch } data, ?_,
      mapItems_map_id _ _, ?_, ?_, ?_⟩
    · simp only [step, complete, hmem, if_true, Option.map_some']
    · intro hd
      exact hnext.2.2.1 ((mapItems_eq_nil _ _).2 hd)
    · intro hd
      exact hnext.2.2.2 (fun hc => hd ((mapItems_eq_nil _ _).1 hc))
    · intro t ht
      have hid : t.id ∈ (mapItems s.nextRef data).map (fun t => t.id) :=
        List.mem_map_of_mem _ ht
      rw [mapItems_map_id] at hid
      exact hnext.2.1 t.id hid

/-- C6 witness: loading two tasks and creating a third. -/
theorem C6_nextTaskId_above_ids_witness :
    (∀ a ∈ loadThenCreate, safePayload a = true) ∧
    run init loadThenCreate = some afterLoadThenCreate ∧
    afterLoadThenCreate.nextTaskId < (twoPow53 : Int) ∧
    ∀ t ∈ afterLoadThenCreate.tasks, t.id < afterLoadThenCreate.nextTaskId :=
  ⟨by decide, by decide, by decide,
    (C6_nextTaskId_above_ids loadThenCreate afterLoadThenCreate (by decide) (by decide)).1
      (by decide)⟩

/-- C7 as stated fails, since nextTaskId++ is a double increment and stays at
2^53. Loading the pairwise distinct ids 1 and 2^53 and creating one task
gives two tasks with id 2^53; loading the safe id 2^53 - 1 and creating two
tasks gives two tasks with id 2^53 as well. -/
theorem C7_counterexample :
    (run init loadUpToLimitThenCreate).map (fun s => s.tasks.map (fun t => t.id)) =
      some [9007199254740992, 1, 9007199254740992] ∧
    (run init createTwiceAtLimit).map (fun s => s.tasks.map (fun t => t.id)) =
      some [9007199254740992, 9007199254740992, 9007199254740991] := by
  decide

/-- C7 amended. In every state reached from the initial state by events whose
loaded payloads carry pairwise distinct safe integer ids (absolute value
below 2^53), while nextTaskId is below 2^53 the ids of the tasks of the list
are pairwise distinct. -/
theorem C7_ids_pairwise_distinct (as : List Action) (s : State)
    (hp : ∀ a ∈ as, safePayload a = true) (hd : ∀ a ∈ as, distinctPayload a = true)
    (h : run init as = some s) (hlt : s.nextTaskId < (twoPow53 : Int)) :
    s.tasks.Pairwise (fun t u => t.id ≠ u.id) := by
  have hn : (s.tasks.map (fun t => t.id)).Nodup :=
    run_distinctInv h hp hd init_counterInv init_distinctInv hlt
  exact List.pairwise_map.1 hn

/-- C7 witness: loading two tasks and creating a third. -/
theorem C7_ids_pairwise_distinct_witness :
    (∀ a ∈ loadThenCreate, safePayload a = true) ∧
    (∀ a ∈ loadThenCreate, distinctPayload a = true) ∧
    run init loadThenCreate = some afterLoadThenCreate ∧
    afterLoadThenCreate.nextTaskId < (twoPow53 : Int) ∧
    afterLoadThenCreate.tasks.Pairwise (fun t u => t.id ≠ u.id) :=
  ⟨by decide, by decide, by decide, by decide,
    C7_ids_pairwise_distinct loadThenCreate afterLoadThenCreate (by decide) (by decide)
      (by decide) (by decide)⟩

/-- C8 as stated fails in two ways. createTask takes the new task from the
response body, so when the API answers with completed = true the task put at
the front has id 1 and completed = true. And nextTaskId++ is a double
increment: with the counter at 2^53 (after loading the id 2^53 - 1 and one
create) a second successful create leaves the counter at 2^53. -/
theorem C8_counterexample :
    (run init createAnsweredCompleted).map (fun s =>
        (s.tasks.map (fun t => (t.id, t.completed)), s.nextTaskId)) =
      some ([(1, true)], 2) ∧
    (run init createOnceAtLimit).map (fun s => s.nextTaskId) = some 9007199254740992 ∧
    (run init createTwiceAtLimit).map (fun s => s.nextTaskId) = some 9007199254740992 := by
  decide

/-- C8 amended. For an input title whose trimmed value is non-empty
createTask sends one request and changes nothing else; and in every state
where that request is in flight, with counter value n = nextTaskId, its
success with response body data puts exactly one task at the front of the
list, with id n and with the title and the completed flag of data (so
completed = false when the API echoes the submitted task), and leaves the
other tasks and their order unchanged; nextTaskId becomes the double sum
n + 1, which is n + 1 when n is a safe integer (absolute value below 2^53). -/
theorem C8_createTask_success (s : State) (value : String) (data : Item)
    (h : trim value ≠ "") :
    createTask s value = { s with pending := s.pending ++ [Request.create (trim value)] } ∧
    ∀ s1 : State, Request.create (trim value) ∈ s1.pending →
      ∃ s2, step s1 (.createThen (trim value) data) = some s2 ∧
        s2.tasks =
          { ref := s1.nextRef, id := s1.nextTaskId, title := data.title,
            completed := data.completed } :: s1.tasks ∧
        s2.nextTaskId = addOne s1.nextTaskId ∧
        (safeInteger s1.nextTaskId = true → s2.nextTaskId = s1.nextTaskId + 1) := by
  refine ⟨?_, ?_⟩
  · unfold createTask
    dsimp only
    rw [if_neg h]
  · intro s1 hmem
    refine ⟨createTaskThen { s1 with pending := s1.pending.erase (Request.create (trim value)) }
      data, ?_, rfl, rfl, ?_⟩
    · simp only [step, complete, hmem, if_true, Option.map_some']
    · intro hsafe
      have := (safeInteger_iff _).1 hsafe
      exact addOne_exact _ this.1 this.2

/-- C8 witness: the title Buy milk on the state reached by loading two tasks
and creating a third, where the counter is 4. -/
theorem C8_createTask_success_witness :
    trim "Buy milk" ≠ "" ∧
    ∃ s2, step (createTask afterLoadThenCreate "Buy milk")
        (.createThen (trim "Buy milk") { id := 101, title := "Buy milk", completed := false }) =
          some s2 ∧
      s2.tasks =
        { ref := 3, id := 4, title := "Buy milk", completed := false } ::
          afterLoadThenCreate.tasks ∧
      s2.nextTaskId = 4 + 1 := by
  obtain ⟨s2, h1, h2, -, h3⟩ :=
    (C8_createTask_success afterLoadThenCreate "Buy milk"
      { id := 101, title := "Buy milk", completed := false } (by decide)).2
      (createTask afterLoadThenCreate "Buy milk") (by decide)
  exact ⟨by decide, s2, h1, h2, h3 (by decide)⟩

/-- C9. For an input title that is empty or made of white space only,
createTask sends no request, leaves tasks and nextTaskId unchanged and shows
the error message asking for a task title. -/
theorem C9_createTask_blank_title (s : State) (value : String)
    (h : ∀ c ∈ value.data, isWhiteSpace c = true) :
    createTask s value = showStatus s Notice.enterTaskTitle ∧
    (createTask s value).pending = s.pending ∧
    (createTask s value).tasks = s.tasks ∧
    (createTask s value).nextTaskId = s.nextTaskId ∧
    (createTask s value).notices = s.notices ++ [Notice.enterTaskTitle] ∧
    Notice.enterTaskTitle.type = StatusType.error := by
  have heq : createTask s value = showStatus s Notice.enterTaskTitle := by
    unfold createTask
    dsimp only
    rw [if_pos (trim_all_white value h)]
  rw [heq]
  exact ⟨rfl, rfl, rfl, rfl, rfl, rfl⟩

/-- C9 witness: the title made of three blanks, on the state reached by
loading two tasks and creating a third. -/
theorem C9_createTask_blank_title_witness :
    (∀ c ∈ "   ".data, isWhiteSpace c = true) ∧
    createTask afterLoadThenCreate "   " =
      showStatus afterLoadThenCreate Notice.enterTaskTitle :=
  ⟨by decide, (C9_createTask_blank_title afterLoadThenCreate "   " (by decide)).1⟩

/-- C10. In every reachable state, for the id of a task of the list,
toggleTaskComplete(id) sends one request and leaves the state otherwise
unchanged; when that request succeeds the first task with that id has its
completed flag negated and the list is otherwise the same (every other task,
every title, every id and the order); when it fails the list is unchanged.
For an id that no task has, the call changes nothing and sends no request. -/
theorem C10_toggleTaskComplete (s : State) (h : Reachable s) (id : Int) :
    ((∃ t ∈ s.tasks, t.id = id) →
      ∃ pre t post, s.tasks = pre ++ t :: post ∧ t.id = id ∧ (∀ u ∈ pre, u.id ≠ id) ∧
        toggleTaskComplete s id =
          { s with pending := s.pending ++ [Request.toggle id t.ref] } ∧
        (step (toggleTaskComplete s id) (.toggleThen id t.ref)).map (fun s2 => s2.tasks) =
          some (pre ++ { t with completed := !t.completed } :: post) ∧
        (step (toggleTaskComplete s id) (.toggleCatch id t.ref)).map (fun s2 => s2.tasks) =
          some s.tasks) ∧
    ((∀ t ∈ s.tasks, t.id ≠ id) → toggleTaskComplete s id = s) := by
  refine ⟨?_, ?_⟩
  · intro hex
    obtain ⟨t, hfind⟩ := find_of_mem hex
    obtain ⟨hid, pre, post, hsplit, hpre⟩ := find_split hfind
    have hcall : toggleTaskComplete s id =
        { s with pending := s.pending ++ [Request.toggle id t.ref] } := by
      unfold toggleTaskComplete
      rw [hfind]
    have hn := (reachable_refsFresh h).2
    refine ⟨pre, t, post, hsplit, hid, hpre, hcall, ?_, ?_⟩
    · rw [hcall]
      simp only [step, complete, List.mem_append, List.mem_singleton, or_true, if_true,
        Option.map_some', toggleTaskCompleteThen, showStatus]
      rw [hsplit] at hn ⊢
      rw [flipCompleted_split pre post t hn]
    · rw [hcall]
      simp only [step, complete, List.mem_append, List.mem_singleton, or_true, if_true,
        Option.map_some', toggleTaskCompleteCatch, showStatus]
  · intro hno
    unfold toggleTaskComplete
    have : s.tasks.find? (fun t => t.id == id) = none := by
      rw [List.find?_eq_none]
      intro t ht
      simpa using hno t ht
    rw [this]

/-- C10 witness: the state reached by loading two tasks and creating a third,
with id 1 of the second task of the list and the absent id 7. -/
theorem C10_toggleTaskComplete_witness :
    Reachable afterLoadThenCreate ∧
    (∃ t ∈ afterLoadThenCreate.tasks, t.id = 1) ∧
    (∀ t ∈ afterLoadThenCreate.tasks, t.id ≠ 7) ∧
    (∃ pre t post, afterLoadThenCreate.tasks = pre ++ t :: post ∧ t.id = 1) ∧
    toggleTaskComplete afterLoadThenCreate 7 = afterLoadThenCreate :=
  ⟨⟨loadThenCreate, by decide⟩, by decide, by decide,
    ((C10_toggleTaskComplete afterLoadThenCreate ⟨loadThenCreate, by decide⟩ 1).1
      (by decide)).imp (fun _ h => h.imp (fun _ h => h.imp (fun _ h => ⟨h.1, h.2.1⟩))),
    (C10_toggleTaskComplete afterLoadThenCreate ⟨loadThenCreate, by decide⟩ 7).2 (by decide)⟩

end TaskManager
